import Mathlib

/-!
# Motor control with a Raspberry Pi: embedding of `motor_control.cpp`

The program drives a DC motor through three GPIO lines.  Every call into the
wiringPi library (`pinMode`, `digitalWrite`, `pwmWrite`, `delay`) is recorded
as one entry of a trace, in program order.  `int` variables are integers whose
additions are reduced to 32 bits explicitly, and `%` is the truncating
remainder of C++.

The `while (true)` loop of `main` is run with a bound on the number of
iterations, so that every finite initial part of the (infinite) run can be
evaluated.
-/

namespace MotorControl

/-! ## Symbolic constants of the hardware library -/

/-- Logic levels taken by `digitalWrite`. -/
inductive Level
  | LOW
  | HIGH
  deriving DecidableEq, Repr

/-- Pin modes taken by `pinMode` that the program uses. -/
inductive PinMode
  | OUTPUT
  | PWM_OUTPUT
  deriving DecidableEq, Repr

/-- One call into the hardware library, with its arguments. -/
inductive HwOp
  | pinMode (pin : Int) (mode : PinMode)
  | digitalWrite (pin : Int) (value : Level)
  | pwmWrite (pin : Int) (value : Int)
  | delay (howLong : Nat)
  deriving DecidableEq, Repr

/-! ## Pin assignment (`#define`s of the source) -/

/-- PWM pin connected to the motor driver. -/
def PWM_PIN : Int := 18

/-- Direction pin 1. -/
def DIR_PIN1 : Int := 17

/-- Direction pin 2. -/
def DIR_PIN2 : Int := 27

/-! ## The two routines -/

/-- Source `initMotorPins`: the calls it makes, in order. -/
def initMotorPins : List HwOp :=
  [HwOp.pinMode PWM_PIN PinMode.PWM_OUTPUT,
   HwOp.pinMode DIR_PIN1 PinMode.OUTPUT,
   HwOp.pinMode DIR_PIN2 PinMode.OUTPUT]

/-- Source `controlMotor(int speed, bool forward)`: the calls it makes, in
order.  The branch on `forward` writes the two direction pins, then the speed
goes to the PWM pin as it was received. -/
def controlMotor (speed : Int) (forward : Bool) : List HwOp :=
  (if forward then
    [HwOp.digitalWrite DIR_PIN1 Level.HIGH, HwOp.digitalWrite DIR_PIN2 Level.LOW]
  else
    [HwOp.digitalWrite DIR_PIN1 Level.LOW, HwOp.digitalWrite DIR_PIN2 Level.HIGH])
  ++ [HwOp.pwmWrite PWM_PIN speed]

/-! ## Machine arithmetic -/

/-- Reduction of an integer to the range of a 32-bit signed `int`. -/
def wrapInt32 (x : Int) : Int :=
  (x + 2147483648) % 4294967296 - 2147483648

/-- The `+` of two `int`s. -/
def intAdd (a b : Int) : Int := wrapInt32 (a + b)

/-- The `%` of two `int`s: remainder of the division that truncates toward zero. -/
def intRem (a b : Int) : Int := Int.tmod a b

/-! ## The control loop of `main` -/

/-- The two local variables of `main`. -/
structure LoopState where
  speed : Int
  forward : Bool
  deriving DecidableEq, Repr

/-- Values of `speed` and `forward` when the loop is entered. -/
def initialState : LoopState := { speed := 100, forward := true }

/-- The loop condition, `true`. -/
def loopCond (_ : LoopState) : Bool := true

/-- The two assignments that end the loop body:
`speed = (speed + 100) % 1024; forward = !forward;`. -/
def advance (s : LoopState) : LoopState :=
  { speed := intRem (intAdd s.speed 100) 1024, forward := !s.forward }

/-- One pass through the loop body: the calls made and the state it leaves. -/
def loopBody (s : LoopState) : List HwOp × LoopState :=
  (controlMotor s.speed s.forward ++ [HwOp.delay 1000], advance s)

/-- The `while` loop, run for at most `fuel` passes.  The second component is
`some s` when the loop was left in state `s` (its condition was false), and
`none` when all `fuel` passes were made and the loop is still running. -/
def whileLoop : Nat → LoopState → List HwOp × Option LoopState
  | 0, _ => ([], none)
  | fuel + 1, s =>
    if loopCond s then
      ((loopBody s).1 ++ (whileLoop fuel (loopBody s).2).1,
       (whileLoop fuel (loopBody s).2).2)
    else
      ([], some s)

/-- What a run of `main` has produced: the hardware calls, the lines written
to the error stream, and the exit status (`none` while `main` has not
returned). -/
structure Outcome where
  trace : List HwOp
  stderr : List String
  exit : Option Int
  deriving DecidableEq, Repr

/-- Source `main`.  `setupResult` is what `wiringPiSetupGpio()` returned and
`fuel` bounds the number of loop passes that are run. -/
def main (setupResult : Int) (fuel : Nat) : Outcome :=
  if setupResult == -1 then
    { trace := [], stderr := ["Error: WiringPi initialization failed."], exit := some 1 }
  else
    { trace := initMotorPins ++ (whileLoop fuel initialState).1,
      stderr := [],
      exit := (whileLoop fuel initialState).2.map (fun _ => 0) }

/-! ## Derived notions used by the statements -/

/-- The loop variables at the start of pass `n` (passes are counted from 0). -/
def stateAt : Nat → LoopState
  | 0 => initialState
  | n + 1 => advance (stateAt n)

/-- The loop variables `n` passes after state `s`. -/
def stateFrom (s : LoopState) : Nat → LoopState
  | 0 => s
  | n + 1 => stateFrom (advance s) n

/-- The level of line `pin` after the calls of a trace, given its level
before: the value of the last `digitalWrite` to that pin. -/
def lineAfter (pin : Int) (before : Level) : List HwOp → Level
  | [] => before
  | HwOp.digitalWrite p v :: rest => lineAfter pin (if p = pin then v else before) rest
  | _ :: rest => lineAfter pin before rest

/-- Whether a call configures a pin. -/
def isPinMode : HwOp → Bool
  | HwOp.pinMode _ _ => true
  | _ => false

/-- Whether a call writes a pin. -/
def isWrite : HwOp → Bool
  | HwOp.digitalWrite _ _ => true
  | HwOp.pwmWrite _ _ => true
  | _ => false

/-- Whether a call is a pulse-width write. -/
def isPwmWrite : HwOp → Bool
  | HwOp.pwmWrite _ _ => true
  | _ => false

/-- The duty-cycle range of the PWM hardware, 0 to 1023. -/
def InRange (s : LoopState) : Prop := 0 ≤ s.speed ∧ s.speed ≤ 1023

instance (s : LoopState) : Decidable (InRange s) :=
  inferInstanceAs (Decidable (0 ≤ s.speed ∧ s.speed ≤ 1023))

/-- One transition of the loop, as a relation on the loop variables: the
condition holds and the body leads from `s` to `t`. -/
inductive Step : LoopState → LoopState → Prop
  | pass (s : LoopState) (h : loopCond s = true) : Step s (loopBody s).2

/-- States in which the loop is left, so that `return 0` comes next. -/
def Terminal (s : LoopState) : Prop := loopCond s = false

/-- States the loop variables can take, starting from the initial values. -/
inductive Reachable : LoopState → Prop
  | start : Reachable initialState
  | next {s t : LoopState} (hs : Reachable s) (ht : Step s t) : Reachable t

/-! ## Shared lemmas -/

theorem wrapInt32_of_small (x : Int) (h0 : -2147483648 ≤ x) (h1 : x ≤ 2147483647) :
    wrapInt32 x = x := by
  unfold wrapInt32; omega

theorem advance_speed_of_inRange (s : LoopState) (h : InRange s) :
    (advance s).speed = (s.speed + 100) % 1024 := by
  obtain ⟨h0, h1⟩ := h
  show Int.tmod (wrapInt32 (s.speed + 100)) 1024 = _
  rw [wrapInt32_of_small _ (by omega) (by omega), Int.tmod_eq_emod (by omega) (by omega)]

theorem advance_inRange (s : LoopState) (h : InRange s) : InRange (advance s) := by
  have e := advance_speed_of_inRange s h
  unfold InRange at *
  omega

theorem stateAt_inRange (n : Nat) : InRange (stateAt n) := by
  induction n with
  | zero => exact ⟨by decide, by decide⟩
  | succ k ih => exact advance_inRange _ ih

theorem stateAt_speed (n : Nat) : (stateAt n).speed = (100 + 100 * (n : Int)) % 1024 := by
  induction n with
  | zero => rfl
  | succ k ih =>
    show (advance (stateAt k)).speed = _
    rw [advance_speed_of_inRange _ (stateAt_inRange k), ih]
    push_cast
    omega

theorem stateAt_forward (n : Nat) : (stateAt n).forward = decide (n % 2 = 0) := by
  induction n with
  | zero => rfl
  | succ k ih =>
    show (!(stateAt k).forward) = _
    rw [ih]
    rcases Nat.mod_two_eq_zero_or_one k with h | h <;> simp [h, Nat.succ_mod_two_eq_zero_iff]

theorem stateFrom_succ (s : LoopState) (n : Nat) :
    stateFrom s (n + 1) = advance (stateFrom s n) := by
  induction n generalizing s with
  | zero => rfl
  | succ k ih =>
    show stateFrom (advance s) (k + 1) = advance (stateFrom (advance s) k)
    exact ih (advance s)

theorem stateFrom_initial (n : Nat) : stateFrom initialState n = stateAt n := by
  induction n with
  | zero => rfl
  | succ k ih => rw [stateFrom_succ, ih]; rfl

theorem whileLoop_succ_fst (fuel : Nat) (s : LoopState) :
    (whileLoop (fuel + 1) s).1 =
      (whileLoop fuel s).1 ++ (loopBody (stateFrom s fuel)).1 := by
  induction fuel generalizing s with
  | zero => simp [whileLoop, loopCond, stateFrom]
  | succ k ih =>
    have h1 : (whileLoop (k + 1 + 1) s).1 =
        (loopBody s).1 ++ (whileLoop (k + 1) (advance s)).1 := by
      simp [whileLoop, loopCond, loopBody]
    have h2 : (whileLoop (k + 1) s).1 = (loopBody s).1 ++ (whileLoop k (advance s)).1 := by
      simp [whileLoop, loopCond, loopBody]
    rw [h1, ih (advance s), h2]
    simp [stateFrom, List.append_assoc]

theorem whileLoop_snd (fuel : Nat) (s : LoopState) : (whileLoop fuel s).2 = none := by
  induction fuel generalizing s with
  | zero => rfl
  | succ k ih => simp [whileLoop, loopCond, ih]

theorem main_trace_succ (r : Int) (h : r ≠ -1) (n : Nat) :
    (main r (n + 1)).trace =
      (main r n).trace ++ (controlMotor (stateAt n).speed (stateAt n).forward
        ++ [HwOp.delay 1000]) := by
  have hr : (r == -1) = false := by simpa using h
  simp only [main, hr, Bool.false_eq_true, if_false]
  rw [whileLoop_succ_fst, stateFrom_initial]
  simp [loopBody, List.append_assoc]

theorem main_trace_zero (r : Int) (h : r ≠ -1) : (main r 0).trace = initMotorPins := by
  have hr : (r == -1) = false := by simpa using h
  simp [main, hr, whileLoop]

theorem main_exit_of_ok (r : Int) (h : r ≠ -1) (fuel : Nat) : (main r fuel).exit = none := by
  have hr : (r == -1) = false := by simpa using h
  simp [main, hr, whileLoop_snd]

theorem main_of_failed (fuel : Nat) :
    main (-1) fuel =
      { trace := [], stderr := ["Error: WiringPi initialization failed."], exit := some 1 } := by
  simp [main]

theorem controlMotor_eq (speed : Int) (forward : Bool) :
    controlMotor speed forward =
      [HwOp.digitalWrite 17 (if forward then Level.HIGH else Level.LOW),
       HwOp.digitalWrite 27 (if forward then Level.LOW else Level.HIGH),
       HwOp.pwmWrite 18 speed] := by
  cases forward <;> rfl

theorem LoopState.eq_of {a b : LoopState} (h1 : a.speed = b.speed)
    (h2 : a.forward = b.forward) : a = b := by
  cases a; cases b; simp_all

theorem pwmWrite_mem_main (r : Int) (h : r ≠ -1) (fuel : Nat) (p v : Int)
    (hm : HwOp.pwmWrite p v ∈ (main r fuel).trace) :
    ∃ i, i < fuel ∧ p = PWM_PIN ∧ v = (stateAt i).speed := by
  induction fuel with
  | zero =>
    rw [main_trace_zero r h] at hm
    simp [initMotorPins] at hm
  | succ k ih =>
    rw [main_trace_succ r h k, List.mem_append] at hm
    rcases hm with hm | hm
    · obtain ⟨i, hi, hp, hv⟩ := ih hm
      exact ⟨i, by omega, hp, hv⟩
    · rw [controlMotor_eq] at hm
      simp at hm
      exact ⟨k, by omega, by rw [hm.1]; rfl, hm.2⟩

theorem pinMode_count_main (r : Int) (h : r ≠ -1) (fuel : Nat) :
    ((main r fuel).trace.filter isPinMode).length = 3 := by
  induction fuel with
  | zero => rw [main_trace_zero r h]; rfl
  | succ k ih =>
    rw [main_trace_succ r h k, List.filter_append, List.length_append, ih, controlMotor_eq]
    simp [isPinMode]

theorem pwmWrite_count_main (r : Int) (h : r ≠ -1) (fuel : Nat) :
    ((main r fuel).trace.filter isPwmWrite).length = fuel := by
  induction fuel with
  | zero => rw [main_trace_zero r h]; rfl
  | succ k ih =>
    rw [main_trace_succ r h k, List.filter_append, List.length_append, ih, controlMotor_eq]
    simp [isPwmWrite]

theorem whileLoop_no_pinMode (fuel : Nat) (s : LoopState) :
    ∀ op ∈ (whileLoop fuel s).1, isPinMode op = false := by
  induction fuel generalizing s with
  | zero => simp [whileLoop]
  | succ k ih =>
    intro op hop
    simp only [whileLoop, loopCond, if_true, loopBody, List.mem_append] at hop
    rcases hop with (hop | hop) | hop
    · rw [controlMotor_eq] at hop
      simp at hop
      rcases hop with rfl | rfl | rfl <;> rfl
    · simp at hop
      subst hop
      rfl
    · exact ih _ op hop

theorem whileLoop_head (fuel : Nat) (hf : 0 < fuel) :
    (whileLoop fuel initialState).1.head? = some (HwOp.digitalWrite 17 Level.HIGH) := by
  obtain ⟨k, rfl⟩ : ∃ k, fuel = k + 1 := ⟨fuel - 1, by omega⟩
  simp [whileLoop, loopCond, loopBody, controlMotor_eq, initialState]

/-! ## Speed and direction along the loop -/

/-- C1: when initialisation succeeded, the speed after `n` executions of
`speed = (speed + 100) % 1024` from the initial value 100 is
`(100 + 100 * n) mod 1024`, and pass `n` of the loop hands exactly this value
to `controlMotor`; passes 0, 1, 2 use 100, 200, 300 and after 10 updates the
speed is 76. -/
theorem speed_after_updates (r : Int) (h : r ≠ -1) (n : Nat) :
    (stateAt n).speed = (100 + 100 * (n : Int)) % 1024 ∧
    (main r (n + 1)).trace =
      (main r n).trace ++ (controlMotor ((100 + 100 * (n : Int)) % 1024) (stateAt n).forward
        ++ [HwOp.delay 1000]) ∧
    (stateAt 0).speed = 100 ∧ (stateAt 1).speed = 200 ∧ (stateAt 2).speed = 300 ∧
    (stateAt 10).speed = 76 := by
  refine ⟨stateAt_speed n, ?_, by decide, by decide, by decide, by decide⟩
  rw [← stateAt_speed n]
  exact main_trace_succ r h n

theorem speed_after_updates_witness :
    (0 : Int) ≠ -1 ∧ (stateAt 10).speed = (100 + 100 * ((10 : Nat) : Int)) % 1024 ∧
    (main 0 11).trace =
      (main 0 10).trace ++ (controlMotor 76 true ++ [HwOp.delay 1000]) :=
  ⟨by decide, (speed_after_updates 0 (by decide) 10).1,
    (speed_after_updates 0 (by decide) 10).2.1⟩

/-- C2: when initialisation succeeded, the direction flag handed to
`controlMotor` on pass `n` is forward exactly when `n` is even, it is forward
on pass 0, and the flag of pass `n + 1` is the negation of the flag of pass
`n`. -/
theorem direction_alternates (r : Int) (h : r ≠ -1) (n : Nat) :
    ((stateAt n).forward = true ↔ n % 2 = 0) ∧
    (stateAt 0).forward = true ∧
    (stateAt (n + 1)).forward = !(stateAt n).forward ∧
    (main r (n + 1)).trace =
      (main r n).trace ++ (controlMotor (stateAt n).speed (decide (n % 2 = 0))
        ++ [HwOp.delay 1000]) := by
  refine ⟨by simp [stateAt_forward], rfl, rfl, ?_⟩
  rw [← stateAt_forward n]
  exact main_trace_succ r h n

theorem direction_alternates_witness :
    (0 : Int) ≠ -1 ∧ ((stateAt 3).forward = true ↔ 3 % 2 = 0) ∧
    (stateAt 4).forward = !(stateAt 3).forward :=
  ⟨by decide, (direction_alternates 0 (by decide) 3).1,
    (direction_alternates 0 (by decide) 3).2.2.1⟩

/-- C4: the range 0 to 1023 holds for the initial speed, every loop update
preserves it, so it holds at the start of every pass, and every value that
`main` writes to the PWM pin lies in 0..1023. -/
theorem speed_range_invariant (r : Int) (fuel : Nat) :
    InRange initialState ∧
    (∀ s, InRange s → InRange (advance s)) ∧
    (∀ n, 0 ≤ (stateAt n).speed ∧ (stateAt n).speed ≤ 1023) ∧
    (∀ p v, HwOp.pwmWrite p v ∈ (main r fuel).trace → 0 ≤ v ∧ v ≤ 1023) := by
  refine ⟨by decide, advance_inRange, stateAt_inRange, ?_⟩
  intro p v hm
  by_cases h : r = -1
  · subst h
    rw [main_of_failed] at hm
    simp at hm
  · obtain ⟨i, _, _, hv⟩ := pwmWrite_mem_main r h fuel p v hm
    rw [hv]
    exact stateAt_inRange i

theorem speed_range_invariant_witness :
    InRange { speed := 1000, forward := false } ∧
    InRange (advance { speed := 1000, forward := false }) ∧
    (HwOp.pwmWrite 18 200 ∈ (main 0 2).trace → (0 : Int) ≤ 200 ∧ (200 : Int) ≤ 1023) :=
  ⟨by decide, (speed_range_invariant 0 2).2.1 _ (by decide),
    (speed_range_invariant 0 2).2.2.2 18 200⟩

/-- C8 (as stated, refuted): the speed handed to `controlMotor` on pass 10 is
76, which is not greater than the 1000 handed over on pass 9. -/
theorem speed_not_always_increasing :
    (stateAt 9).speed = 1000 ∧ (stateAt 10).speed = 76 ∧
    (main 0 11).trace = (main 0 9).trace ++
      (controlMotor 1000 false ++ [HwOp.delay 1000]
        ++ (controlMotor 76 true ++ [HwOp.delay 1000])) ∧
    ¬ (∀ n : Nat, (stateAt n).speed < (stateAt (n + 1)).speed) :=
  ⟨by decide, by decide, by decide, fun hall => absurd (hall 9) (by decide)⟩

/-- C8 (amended): each loop update adds 100 to the speed unless the sum
reaches 1024, in which case 1024 is taken off; so the speed of pass `n + 1` is
greater than the speed of pass `n` exactly when the latter is at most 923, and
it is then greater by exactly 100. -/
theorem speed_increases_unless_wrap (n : Nat) :
    (stateAt (n + 1)).speed =
      (if (stateAt n).speed ≤ 923 then (stateAt n).speed + 100
       else (stateAt n).speed + 100 - 1024) ∧
    ((stateAt n).speed < (stateAt (n + 1)).speed ↔ (stateAt n).speed ≤ 923) := by
  have hr := stateAt_inRange n
  have he : (stateAt (n + 1)).speed = ((stateAt n).speed + 100) % 1024 :=
    advance_speed_of_inRange _ hr
  unfold InRange at hr
  constructor
  · split <;> omega
  · omega

/-- C10: the speeds of passes `m` and `n` are equal exactly when `m` and `n`
are congruent modulo 256; the sequence of (speed, direction) pairs repeats
every 256 passes and with no shorter period; two passes with the same speed
have the same direction. -/
theorem speed_period (m n : Nat) :
    ((stateAt m).speed = (stateAt n).speed ↔ m % 256 = n % 256) ∧
    stateAt (n + 256) = stateAt n ∧
    (∀ p, 0 < p → (∀ k, stateAt (k + p) = stateAt k) → 256 ≤ p) ∧
    ((stateAt m).speed = (stateAt n).speed → (stateAt m).forward = (stateAt n).forward) := by
  have key : ∀ a b : Nat, (stateAt a).speed = (stateAt b).speed ↔ a % 256 = b % 256 := by
    intro a b
    rw [stateAt_speed, stateAt_speed]
    omega
  refine ⟨key m n, ?_, ?_, ?_⟩
  · apply LoopState.eq_of
    · rw [key]; omega
    · rw [stateAt_forward, stateAt_forward]
      have : (n + 256) % 2 = n % 2 := by omega
      rw [this]
  · intro p hp hk
    have h0 := (key (0 + p) 0).mp (by rw [hk 0])
    omega
  · intro hs
    have hmn := (key m n).mp hs
    rw [stateAt_forward, stateAt_forward]
    have : m % 2 = n % 2 := by omega
    rw [this]

theorem speed_period_witness :
    ((stateAt 3).speed = (stateAt 259).speed ↔ 3 % 256 = 259 % 256) ∧
    stateAt (259 + 256) = stateAt 259 ∧
    (stateAt 3).forward = (stateAt 259).forward :=
  ⟨(speed_period 3 259).1, (speed_period 3 259).2.1,
    (speed_period 3 259).2.2.2 ((speed_period 3 259).1.mpr (by decide))⟩

/-! ## The motor controller and the shape of the trace -/

/-- C3: for any speed and any previous line levels, `controlMotor` with
forward set leaves direction line 1 (pin 17) HIGH and line 2 (pin 27) LOW,
with forward clear it leaves line 1 LOW and line 2 HIGH, and in both cases the
two lines end at different levels. -/
theorem direction_lines_after_control (speed : Int) (b1 b2 : Level) :
    DIR_PIN1 = 17 ∧ DIR_PIN2 = 27 ∧
    lineAfter DIR_PIN1 b1 (controlMotor speed true) = Level.HIGH ∧
    lineAfter DIR_PIN2 b2 (controlMotor speed true) = Level.LOW ∧
    lineAfter DIR_PIN1 b1 (controlMotor speed false) = Level.LOW ∧
    lineAfter DIR_PIN2 b2 (controlMotor speed false) = Level.HIGH ∧
    (∀ forward, lineAfter DIR_PIN1 b1 (controlMotor speed forward) ≠
      lineAfter DIR_PIN2 b2 (controlMotor speed forward)) := by
  refine ⟨rfl, rfl, ?_, ?_, ?_, ?_, ?_⟩
  · simp [controlMotor_eq, lineAfter, DIR_PIN1, DIR_PIN2]
  · simp [controlMotor_eq, lineAfter, DIR_PIN1, DIR_PIN2]
  · simp [controlMotor_eq, lineAfter, DIR_PIN1, DIR_PIN2]
  · simp [controlMotor_eq, lineAfter, DIR_PIN1, DIR_PIN2]
  · intro forward
    cases forward <;> simp [controlMotor_eq, lineAfter, DIR_PIN1, DIR_PIN2]

/-- C7: for every integer speed and every direction flag, `controlMotor`
makes exactly three hardware writes and nothing else: direction line 1,
direction line 2, then one pulse-width write to pin 18 whose argument is the
speed it was given, unchanged. -/
theorem control_writes (speed : Int) (forward : Bool) :
    controlMotor speed forward =
      [HwOp.digitalWrite 17 (if forward then Level.HIGH else Level.LOW),
       HwOp.digitalWrite 27 (if forward then Level.LOW else Level.HIGH),
       HwOp.pwmWrite 18 speed] ∧
    (controlMotor speed forward).length = 3 ∧
    (controlMotor speed forward).filter isWrite = controlMotor speed forward ∧
    (controlMotor speed forward).filter isPwmWrite = [HwOp.pwmWrite PWM_PIN speed] := by
  refine ⟨controlMotor_eq speed forward, ?_, ?_, ?_⟩
  · rw [controlMotor_eq]; rfl
  · rw [controlMotor_eq]; rfl
  · rw [controlMotor_eq]; rfl

/-- C5: when `wiringPiSetupGpio` returns -1, `main` returns 1 after writing
the error message, and the trace of hardware calls is empty whatever the
bound on the loop: neither `initMotorPins` nor `controlMotor` runs. -/
theorem failed_setup_exits (fuel : Nat) :
    (main (-1) fuel).exit = some 1 ∧
    (main (-1) fuel).trace = [] ∧
    (main (-1) fuel).stderr = ["Error: WiringPi initialization failed."] ∧
    (∀ op, op ∈ (main (-1) fuel).trace → False) := by
  rw [main_of_failed]
  simp

/-- C6: when initialisation succeeded, every finite part of the trace starts
with the three calls of `initMotorPins` (pin 18 as PWM output, pins 17 and 27
as outputs); what follows contains no `pinMode` call, so the trace holds
exactly three of them; and once a pass of the loop has run, the call right
after them is the first `digitalWrite` of `controlMotor`. -/
theorem pins_configured_once (r : Int) (h : r ≠ -1) (fuel : Nat) :
    ∃ rest,
      (main r fuel).trace =
        [HwOp.pinMode 18 PinMode.PWM_OUTPUT, HwOp.pinMode 17 PinMode.OUTPUT,
         HwOp.pinMode 27 PinMode.OUTPUT] ++ rest ∧
      (∀ op ∈ rest, isPinMode op = false) ∧
      ((main r fuel).trace.filter isPinMode).length = 3 ∧
      (0 < fuel → rest.head? = some (HwOp.digitalWrite 17 Level.HIGH)) := by
  have hr : (r == -1) = false := by simpa using h
  refine ⟨(whileLoop fuel initialState).1, ?_, whileLoop_no_pinMode fuel initialState,
    pinMode_count_main r h fuel, whileLoop_head fuel⟩
  simp only [main, hr, Bool.false_eq_true, if_false]
  rfl

theorem pins_configured_once_witness :
    (0 : Int) ≠ -1 ∧
    ∃ rest,
      (main 0 2).trace =
        [HwOp.pinMode 18 PinMode.PWM_OUTPUT, HwOp.pinMode 17 PinMode.OUTPUT,
         HwOp.pinMode 27 PinMode.OUTPUT] ++ rest ∧
      (∀ op ∈ rest, isPinMode op = false) ∧
      ((main 0 2).trace.filter isPinMode).length = 3 ∧
      (0 < 2 → rest.head? = some (HwOp.digitalWrite 17 Level.HIGH)) :=
  ⟨by decide, pins_configured_once 0 (by decide) 2⟩

/-- C9: when initialisation succeeded the loop never exits.  As a step relation
on (speed, direction): every reachable state has a successor and is not
terminal, and the state of every pass `n` is reachable.  On the run of `main`:
whatever the number `n` of passes run so far, `main` has not returned (in
particular not with status 0), `n` calls of `controlMotor` have been made, and
a further pass makes the next one. -/
theorem loop_never_exits (r : Int) (h : r ≠ -1) (n : Nat) :
    (∀ s, Reachable s → (∃ t, Step s t) ∧ ¬ Terminal s) ∧
    Reachable (stateAt n) ∧
    (main r n).exit = none ∧
    (main r n).exit ≠ some 0 ∧
    ((main r n).trace.filter isPwmWrite).length = n ∧
    (main r (n + 1)).trace =
      (main r n).trace ++ (controlMotor (stateAt n).speed (stateAt n).forward
        ++ [HwOp.delay 1000]) := by
  have hreach : ∀ k, Reachable (stateAt k) := by
    intro k
    induction k with
    | zero => exact Reachable.start
    | succ j ih => exact Reachable.next ih (Step.pass (stateAt j) rfl)
  refine ⟨?_, hreach n, main_exit_of_ok r h n, ?_, pwmWrite_count_main r h n,
    main_trace_succ r h n⟩
  · intro s _
    exact ⟨⟨_, Step.pass s rfl⟩, by simp [Terminal, loopCond]⟩
  · rw [main_exit_of_ok r h n]
    simp

theorem loop_never_exits_witness :
    (0 : Int) ≠ -1 ∧ (main 0 5).exit = none ∧
    ((main 0 5).trace.filter isPwmWrite).length = 5 :=
  ⟨by decide, (loop_never_exits 0 (by decide) 5).2.2.1,
    (loop_never_exits 0 (by decide) 5).2.2.2.2.1⟩

end MotorControl
